import Mathlib

/-!
Verification development for the `AdvancedCounter` React component
(src/unnamed/part_000).  The component keeps a numeric count, a history of
count values, a configurable step, a debounced save of the count to
localStorage under one fixed key, keyboard ArrowUp/ArrowDown handlers that
read the latest step through a ref, and unmount tracking that cancels the
pending save timer.

The embedding models JavaScript numbers as `JSNum` (NaN or a finite
integer, the only numbers the component produces), the localStorage cell
as `Option String`, the debounce timer as
an optional pair (fire time, captured count), and the React render/effect
loop explicitly: every event handler is followed by the effect pass that
React performs for the effects whose dependencies changed (dependency
comparison is same-value, under which NaN equals NaN, while the history
deduplication inside the effect uses JavaScript strict equality, under
which NaN is unequal to itself, exactly as in the source).  Ghost fields
`writes` (log of store writes with their times) and `counts` (every value
the count ever held this session) support the invariant claims.
-/

namespace AdvCounter

/-- A JavaScript number as the component manipulates it: NaN, or a finite
value.  Every number the component actually produces is an integer or NaN
(the counts move by integer steps from an integer or NaN start, and the
modelled `Number()` fragment parses integer literals), so the finite case
carries an integer.  Infinities never arise in the modelled fragment. -/
inductive JSNum where
  | nan : JSNum
  | fin : ℤ → JSNum
deriving DecidableEq, Repr

/-- `Number.isFinite`. -/
def JSNum.isFinite : JSNum → Bool
  | .nan => false
  | .fin _ => true

/-- `Number.isNaN`. -/
def JSNum.isNaN : JSNum → Bool
  | .nan => true
  | .fin _ => false

/-- JavaScript `+` on numbers: NaN is absorbing. -/
def JSNum.add : JSNum → JSNum → JSNum
  | .fin a, .fin b => .fin (a + b)
  | _, _ => .nan

/-- JavaScript binary `-` on numbers: NaN is absorbing. -/
def JSNum.sub : JSNum → JSNum → JSNum
  | .fin a, .fin b => .fin (a - b)
  | _, _ => .nan

/-- JavaScript strict equality `===` on numbers: `NaN === NaN` is false. -/
def jsStrictEq : JSNum → JSNum → Bool
  | .fin a, .fin b => decide (a = b)
  | _, _ => false

/-- Value of a nonempty all-digit character list, else `none`. -/
def decimalVal? (cs : List Char) : Option Nat :=
  if cs = [] then none
  else cs.foldl
    (fun acc c => acc.bind fun n => if c.isDigit then some (10 * n + (c.toNat - 48)) else none)
    (some 0)

/-- Model of JavaScript `Number()` applied to a string, restricted to the
fragment the component exercises: the empty string coerces to 0, an
optional-sign decimal integer literal coerces to its value, and every
other string (in particular non-numeric text such as "abc" or "NaN")
coerces to NaN. -/
def jsNumber (s : String) : JSNum :=
  match s.data with
  | [] => .fin 0
  | '-' :: rest => (decimalVal? rest).elim .nan (fun n => .fin (-(n : ℤ)))
  | '+' :: rest => (decimalVal? rest).elim .nan (fun n => .fin (n : ℤ))
  | cs => (decimalVal? cs).elim .nan (fun n => .fin (n : ℤ))

/-- Model of JavaScript `String()` applied to a number: "NaN" for NaN, the
usual decimal rendering for an integer. -/
def jsString : JSNum → String
  | .nan => "NaN"
  | .fin n => toString n

/-- `handleStepChange` (source lines 176-185): parse the raw input; if the
result is not finite (NaN included) fall back to step 1; if it is zero fall
back to step 1; otherwise keep the parsed value, whatever its sign. -/
def handleStepChange (value : String) : JSNum :=
  let parsed := jsNumber value
  if !parsed.isFinite || parsed.isNaN then .fin 1
  else if jsStrictEq parsed (.fin 0) then .fin 1
  else parsed

/-- The updater of the history effect (source lines 71-77): if the history
is nonempty and its last entry is strictly equal (`===`) to the current
count, keep it unchanged; otherwise append the current count. -/
def historyPush (h : List JSNum) (c : JSNum) : List JSNum :=
  match h.getLast? with
  | some l => if jsStrictEq l c then h else h ++ [c]
  | none => h ++ [c]

/-- Reading the persisted value on mount may yield a string, find the key
absent, or throw (`Except.error`). -/
def ReadResult : Type := Except Unit (Option String)

/-- The `useState` initializer for `count` (source lines 34-41): the parsed
stored string when the read succeeds and the key is present, 0 when the key
is absent, 0 when the read throws. -/
def initCount (read : ReadResult) : JSNum :=
  match read with
  | .error _ => .fin 0
  | .ok none => .fin 0
  | .ok (some raw) => jsNumber raw

/-- The `useState` initializer for `history` (source lines 44-52): a
one-element list holding the same initial value, `[0]` when the read
throws. -/
def initHistory (read : ReadResult) : List JSNum :=
  match read with
  | .error _ => [.fin 0]
  | .ok none => [.fin 0]
  | .ok (some raw) => [jsNumber raw]

/-- The component state after a settled render: React state (`count`,
`history`, `step`, `isSaving`), the refs (`stepRef`, `saveTimer` as the
fire time paired with the count captured by the timer callback,
`unmounted`), the localStorage cell under the fixed key (`store`), plus
ghost fields: `store0` the cell content at session start, `writes` the log
of performed store writes (time, written string), `counts` every value
`count` has held this session, and `now` the current time. -/
structure CState where
  now : Nat
  count : JSNum
  history : List JSNum
  step : JSNum
  stepRef : JSNum
  isSaving : Bool
  saveTimer : Option (Nat × JSNum)
  unmounted : Bool
  store : Option String
  store0 : Option String
  writes : List (Nat × String)
  counts : List JSNum
deriving DecidableEq, Repr

/-- The effect pass that follows a render: the stepRef-sync effect (source
lines 66-68, dependency `step`), the history effect (lines 71-77,
dependency `count`), and the save effect (lines 80-125, dependency
`count`).  For a changed count the save effect first runs the previous
cleanup (clear the timer, set the saving flag false) and then its body
(mark mounted, clear the timer, set the saving flag true, schedule a write
of the current count 400 time-units from now); the net result is recorded
directly. -/
def runEffects (countChanged stepChanged : Bool) (s : CState) : CState :=
  let s1 := if stepChanged then { s with stepRef := s.step } else s
  let s2 := if countChanged then { s1 with history := historyPush s1.history s1.count } else s1
  if countChanged then
    { s2 with unmounted := false, isSaving := true,
              saveTimer := some (s2.now + 400, s2.count) }
  else s2

/-- The debounced save callback (source lines 94-109): if the component has
unmounted, do nothing; otherwise attempt the store write (`writeOk` false
models a throwing `setItem`, whose failure is swallowed), then in the
`finally` block set the saving flag false when still mounted, and clear the
timer ref. -/
def timerCallback (captured : JSNum) (writeOk : Bool) (s : CState) : CState :=
  if s.unmounted then s
  else
    let s1 := if writeOk then
        { s with store := some (jsString captured),
                 writes := s.writes ++ [(s.now, jsString captured)] }
      else s
    let s2 := if s1.unmounted then s1 else { s1 with isSaving := false }
    { s2 with saveTimer := none }

/-- Advance the clock to time `t`, firing the pending save timer first when
its fire time has been reached. -/
def advanceTo (t : Nat) (writeOk : Bool) (s : CState) : CState :=
  match s.saveTimer with
  | some (ft, v) =>
      if ft ≤ t then { (timerCallback v writeOk { s with now := ft }) with now := t }
      else { s with now := t }
  | none => { s with now := t }

/-- The external events the component reacts to.  The reset click carries
`removeOk`: `localStorage.removeItem` may throw (source lines 169-173),
and a `false` flag models that throwing removal, whose failure the handler
swallows. -/
inductive Ev where
  | inc : Ev
  | dec : Ev
  | reset : Bool → Ev
  | stepInput : String → Ev
  | key : String → Ev
  | idle : Ev
  | unmount : Ev

/-- Process one event: run the handler (source lines 140-185) and then the
effect pass for the effects whose dependencies changed (dependency
comparison is same-value, so a NaN count does not re-trigger the count
effects).  The reset handler (lines 166-174) zeroes the count, empties the
history and attempts to remove the stored key inside a try/catch: when the
removal throws (`removeOk` false) the failure is ignored and the key stays
in the store.  After unmount every event is a no-op: the keyboard listener has
been removed and the UI is gone.  The unmount event runs the effect
cleanups in declaration order: the save-effect cleanup clears the timer and
sets the saving flag false (the unmounted ref is still false at that
point), then the unmount-tracking cleanup (source lines 128-137) sets the
unmounted ref and clears the timer. -/
def handleEvent (ev : Ev) (s : CState) : CState :=
  if s.unmounted then s else
  match ev with
  | .inc =>
      let c := JSNum.add s.count s.step
      runEffects (decide (c ≠ s.count)) false
        { s with count := c, counts := s.counts ++ [c] }
  | .dec =>
      let c := JSNum.sub s.count s.step
      runEffects (decide (c ≠ s.count)) false
        { s with count := c, counts := s.counts ++ [c] }
  | .reset removeOk =>
      runEffects (decide (JSNum.fin 0 ≠ s.count)) false
        { s with count := .fin 0, history := [],
                 store := if removeOk then none else s.store,
                 counts := s.counts ++ [.fin 0] }
  | .stepInput raw =>
      let st := handleStepChange raw
      runEffects false (decide (st ≠ s.step)) { s with step := st }
  | .key k =>
      if k = "ArrowUp" then
        let c := JSNum.add s.count s.stepRef
        runEffects (decide (c ≠ s.count)) false
          { s with count := c, counts := s.counts ++ [c] }
      else if k = "ArrowDown" then
        let c := JSNum.sub s.count s.stepRef
        runEffects (decide (c ≠ s.count)) false
          { s with count := c, counts := s.counts ++ [c] }
      else s
  | .idle => s
  | .unmount =>
      { s with isSaving := false, saveTimer := none, unmounted := true }

/-- The state right after mount: both initializers read the store
(`readOk` false models a throwing `getItem`; `store0` is the actual cell
content), `step` and `stepRef` start at 1, and the mount effect pass runs
every effect once. -/
def mkInit (store0 : Option String) (readOk : Bool) : CState :=
  let read : ReadResult := if readOk then Except.ok store0 else Except.error ()
  let c := initCount read
  runEffects true true
    { now := 0, count := c, history := initHistory read,
      step := .fin 1, stepRef := .fin 1, isSaving := false,
      saveTimer := none, unmounted := false,
      store := store0, store0 := store0, writes := [], counts := [c] }

/-- The states a session can reach: a mount, followed by any interleaving
of clock advances (each possibly firing the due timer, with the write
succeeding or failing) and events. -/
inductive Reachable : CState → Prop where
  | init (store0 : Option String) (readOk : Bool) : Reachable (mkInit store0 readOk)
  | tick {s : CState} (t : Nat) (ok : Bool) :
      Reachable s → s.now ≤ t → Reachable (advanceTo t ok s)
  | ev {s : CState} (e : Ev) : Reachable s → Reachable (handleEvent e s)

/-! ### Unfolding lemmas

One rewriting lemma per branch of the step functions, so that the invariant
and claim proofs can unfold states without fighting nested matches. -/

theorem historyPush_keep {h : List JSNum} {c l : JSNum}
    (hl : h.getLast? = some l) (he : jsStrictEq l c = true) :
    historyPush h c = h := by
  unfold historyPush
  rw [hl]
  simp [he]

theorem historyPush_app_of_last {h : List JSNum} {c l : JSNum}
    (hl : h.getLast? = some l) (he : jsStrictEq l c = false) :
    historyPush h c = h ++ [c] := by
  unfold historyPush
  rw [hl]
  simp [he]

theorem historyPush_nil (c : JSNum) : historyPush [] c = [c] := rfl

theorem runEffects_ff (s : CState) : runEffects false false s = s := rfl

theorem runEffects_ft (s : CState) :
    runEffects false true s = { s with stepRef := s.step } := rfl

theorem runEffects_tf (s : CState) :
    runEffects true false s =
      { s with history := historyPush s.history s.count,
               unmounted := false, isSaving := true,
               saveTimer := some (s.now + 400, s.count) } := rfl

theorem runEffects_tt (s : CState) :
    runEffects true true s =
      { s with stepRef := s.step,
               history := historyPush s.history s.count,
               unmounted := false, isSaving := true,
               saveTimer := some (s.now + 400, s.count) } := rfl

theorem timerCallback_unmounted {s : CState} (v : JSNum) (ok : Bool)
    (hm : s.unmounted = true) : timerCallback v ok s = s := by
  unfold timerCallback
  simp [hm]

theorem timerCallback_ok {s : CState} (v : JSNum)
    (hm : s.unmounted = false) :
    timerCallback v true s =
      { s with store := some (jsString v),
               writes := s.writes ++ [(s.now, jsString v)],
               isSaving := false, saveTimer := none } := by
  unfold timerCallback
  simp [hm]

theorem timerCallback_fail {s : CState} (v : JSNum)
    (hm : s.unmounted = false) :
    timerCallback v false s = { s with isSaving := false, saveTimer := none } := by
  unfold timerCallback
  simp [hm]

theorem advanceTo_none {s : CState} (t : Nat) (ok : Bool)
    (h : s.saveTimer = none) : advanceTo t ok s = { s with now := t } := by
  unfold advanceTo
  rw [h]

theorem advanceTo_wait {s : CState} {ft : Nat} {v : JSNum} (t : Nat) (ok : Bool)
    (h : s.saveTimer = some (ft, v)) (hgt : t < ft) :
    advanceTo t ok s = { s with now := t } := by
  unfold advanceTo
  rw [h]
  simp [Nat.not_le.mpr hgt]

theorem advanceTo_nofire {s : CState} (t : Nat) (ok : Bool)
    (h : ∀ ft v, s.saveTimer = some (ft, v) → t < ft) :
    advanceTo t ok s = { s with now := t } := by
  unfold advanceTo
  cases ht : s.saveTimer with
  | none => rfl
  | some fv =>
      obtain ⟨ft, v⟩ := fv
      simp [Nat.not_le.mpr (h ft v ht)]

theorem advanceTo_fire {s : CState} {ft : Nat} {v : JSNum} (t : Nat) (ok : Bool)
    (h : s.saveTimer = some (ft, v)) (hle : ft ≤ t) :
    advanceTo t ok s =
      { (timerCallback v ok { s with now := ft }) with now := t } := by
  unfold advanceTo
  rw [h]
  simp [hle]

theorem handleEvent_dead {s : CState} (e : Ev) (hm : s.unmounted = true) :
    handleEvent e s = s := by
  unfold handleEvent
  simp [hm]

theorem handleEvent_inc_eq {s : CState} (hm : s.unmounted = false) :
    handleEvent .inc s =
      runEffects (decide (JSNum.add s.count s.step ≠ s.count)) false
        { s with count := JSNum.add s.count s.step,
                 counts := s.counts ++ [JSNum.add s.count s.step] } := by
  unfold handleEvent
  simp [hm]

theorem handleEvent_dec_eq {s : CState} (hm : s.unmounted = false) :
    handleEvent .dec s =
      runEffects (decide (JSNum.sub s.count s.step ≠ s.count)) false
        { s with count := JSNum.sub s.count s.step,
                 counts := s.counts ++ [JSNum.sub s.count s.step] } := by
  unfold handleEvent
  simp [hm]

theorem handleEvent_reset_eq {s : CState} (removeOk : Bool)
    (hm : s.unmounted = false) :
    handleEvent (.reset removeOk) s =
      runEffects (decide (JSNum.fin 0 ≠ s.count)) false
        { s with count := .fin 0, history := [],
                 store := if removeOk then none else s.store,
                 counts := s.counts ++ [.fin 0] } := by
  unfold handleEvent
  simp [hm]

theorem handleEvent_stepInput_eq {s : CState} (raw : String)
    (hm : s.unmounted = false) :
    handleEvent (.stepInput raw) s =
      runEffects false (decide (handleStepChange raw ≠ s.step))
        { s with step := handleStepChange raw } := by
  unfold handleEvent
  simp [hm]

theorem handleEvent_keyUp_eq {s : CState} (hm : s.unmounted = false) :
    handleEvent (.key ("ArrowUp")) s =
      runEffects (decide (JSNum.add s.count s.stepRef ≠ s.count)) false
        { s with count := JSNum.add s.count s.stepRef,
                 counts := s.counts ++ [JSNum.add s.count s.stepRef] } := by
  unfold handleEvent
  simp [hm]

theorem handleEvent_keyDown_eq {s : CState} (hm : s.unmounted = false) :
    handleEvent (.key ("ArrowDown")) s =
      runEffects (decide (JSNum.sub s.count s.stepRef ≠ s.count)) false
        { s with count := JSNum.sub s.count s.stepRef,
                 counts := s.counts ++ [JSNum.sub s.count s.stepRef] } := by
  unfold handleEvent
  simp [hm]

theorem handleEvent_keyOther_eq {s : CState} {k : String}
    (hm : s.unmounted = false) (h1 : k ≠ "ArrowUp") (h2 : k ≠ "ArrowDown") :
    handleEvent (.key k) s = s := by
  unfold handleEvent
  simp [hm, h1, h2]

theorem handleEvent_idle_eq {s : CState} (hm : s.unmounted = false) :
    handleEvent .idle s = s := by
  unfold handleEvent
  simp [hm]

theorem handleEvent_unmount_eq {s : CState} (hm : s.unmounted = false) :
    handleEvent .unmount s =
      { s with isSaving := false, saveTimer := none, unmounted := true } := by
  unfold handleEvent
  simp [hm]

/-- Appending through `historyPush` keeps adjacent history entries strictly
unequal: a value is appended only when it is not `===`-equal to the last
entry. -/
theorem historyPush_chain {h : List JSNum} {c : JSNum}
    (hc : List.Chain' (fun a b => jsStrictEq a b = false) h) :
    List.Chain' (fun a b => jsStrictEq a b = false) (historyPush h c) := by
  cases hl : h.getLast? with
  | none =>
      have hnil : h = [] := List.getLast?_eq_none_iff.mp hl
      subst hnil
      simp [historyPush_nil, List.chain'_singleton]
  | some l =>
      by_cases hstrict : jsStrictEq l c = true
      · rw [historyPush_keep hl hstrict]
        exact hc
      · have hfalse : jsStrictEq l c = false := by simpa using hstrict
        rw [historyPush_app_of_last hl hfalse]
        rw [List.chain'_append]
        refine ⟨hc, List.chain'_singleton c, ?_⟩
        intro x hx y hy
        rw [hl, Option.mem_def] at hx
        simp only [List.head?_cons, Option.mem_def, Option.some.injEq] at hy
        cases hx
        cases hy
        exact hfalse

/-- The session invariant: the current count is among the values the count
has held; a pending timer captured such a value; the store content is
either the session-start content or the string form of such a value; the
step ref mirrors the step state; adjacent history entries are never
strictly equal. -/
structure Inv (s : CState) : Prop where
  count_mem : s.count ∈ s.counts
  timer_mem : ∀ ft v, s.saveTimer = some (ft, v) → v ∈ s.counts
  store_ok : ∀ str, s.store = some str →
      s.store0 = some str ∨ ∃ v ∈ s.counts, jsString v = str
  stepref : s.stepRef = s.step
  hist : List.Chain' (fun a b => jsStrictEq a b = false) s.history

/-- The effect pass establishes the invariant from the facts available right
after an event handler has run. -/
theorem inv_runEffects {s : CState} (cc sc : Bool)
    (h1 : s.count ∈ s.counts)
    (h2 : ∀ ft v, s.saveTimer = some (ft, v) → v ∈ s.counts)
    (h3 : ∀ str, s.store = some str →
        s.store0 = some str ∨ ∃ v ∈ s.counts, jsString v = str)
    (h4 : sc = false → s.stepRef = s.step)
    (h5 : List.Chain' (fun a b => jsStrictEq a b = false) s.history) :
    Inv (runEffects cc sc s) := by
  cases cc <;> cases sc <;>
    simp only [runEffects_ff, runEffects_ft, runEffects_tf, runEffects_tt] <;>
    refine ⟨?_, ?_, ?_, ?_, ?_⟩ <;>
    simp_all [historyPush_chain h5]

/-- The timer callback preserves the invariant: when it fires it writes the
string form of the value it captured at schedule time. -/
theorem inv_timerCallback {s : CState} (v : JSNum) (ok : Bool)
    (hv : v ∈ s.counts) (hInv : Inv s) : Inv (timerCallback v ok s) := by
  obtain ⟨h1, h2, h3, h4, h5⟩ := hInv
  cases hm : s.unmounted with
  | true =>
      rw [timerCallback_unmounted v ok hm]
      exact ⟨h1, h2, h3, h4, h5⟩
  | false =>
      cases ok with
      | true =>
          rw [timerCallback_ok v hm]
          refine ⟨h1, by simp, ?_, h4, h5⟩
          intro str hstr
          simp only [Option.some.injEq] at hstr
          exact Or.inr ⟨v, hv, hstr⟩
      | false =>
          rw [timerCallback_fail v hm]
          exact ⟨h1, by simp, h3, h4, h5⟩

/-- Changing only the clock preserves the invariant. -/
theorem inv_setNow {s : CState} (t : Nat) (hInv : Inv s) :
    Inv { s with now := t } := by
  obtain ⟨h1, h2, h3, h4, h5⟩ := hInv
  exact ⟨h1, by simpa using h2, by simpa using h3, h4, h5⟩

theorem inv_advanceTo {s : CState} (t : Nat) (ok : Bool)
    (hInv : Inv s) : Inv (advanceTo t ok s) := by
  cases htimer : s.saveTimer with
  | none =>
      rw [advanceTo_none t ok htimer]
      exact inv_setNow t hInv
  | some p =>
      obtain ⟨ft, v⟩ := p
      by_cases hle : ft ≤ t
      · rw [advanceTo_fire t ok htimer hle]
        have hv : v ∈ s.counts := hInv.timer_mem ft v htimer
        exact inv_setNow t (inv_timerCallback v ok (by simpa using hv)
          (inv_setNow ft hInv))
      · rw [advanceTo_wait t ok htimer (Nat.lt_of_not_le hle)]
        exact inv_setNow t hInv

/-- Event processing preserves the invariant. -/
theorem inv_handleEvent {s : CState} (e : Ev) (hInv : Inv s) :
    Inv (handleEvent e s) := by
  obtain ⟨h1, h2, h3, h4, h5⟩ := hInv
  cases hm : s.unmounted with
  | true =>
      rw [handleEvent_dead e hm]
      exact ⟨h1, h2, h3, h4, h5⟩
  | false =>
      cases e with
      | inc =>
          rw [handleEvent_inc_eq hm]
          refine inv_runEffects _ _ ?_ ?_ ?_ ?_ ?_ <;> simp_all
          intro str hstr
          rcases h3 str hstr with hl | ⟨v, hv, he⟩
          · exact Or.inl hl
          · exact Or.inr ⟨v, Or.inl hv, he⟩
      | dec =>
          rw [handleEvent_dec_eq hm]
          refine inv_runEffects _ _ ?_ ?_ ?_ ?_ ?_ <;> simp_all
          intro str hstr
          rcases h3 str hstr with hl | ⟨v, hv, he⟩
          · exact Or.inl hl
          · exact Or.inr ⟨v, Or.inl hv, he⟩
      | reset removeOk =>
          rw [handleEvent_reset_eq removeOk hm]
          refine inv_runEffects _ _ ?_ ?_ ?_ ?_ ?_
          · simp
          · intro ft v hfv
            exact List.mem_append_left _ (h2 ft v hfv)
          · intro str hstr
            cases removeOk with
            | true => exact absurd hstr (by simp)
            | false =>
                have hs2 : s.store = some str := hstr
                rcases h3 str hs2 with hl | ⟨v, hv, he⟩
                · exact Or.inl hl
                · exact Or.inr ⟨v, List.mem_append_left _ hv, he⟩
          · exact fun _ => h4
          · exact List.chain'_nil
      | stepInput raw =>
          rw [handleEvent_stepInput_eq raw hm]
          refine inv_runEffects _ _ ?_ ?_ ?_ ?_ ?_ <;> simp_all
      | key k =>
          by_cases hk : k = "ArrowUp"
          · subst hk
            rw [handleEvent_keyUp_eq hm]
            refine inv_runEffects _ _ ?_ ?_ ?_ ?_ ?_ <;> simp_all
            intro str hstr
            rcases h3 str hstr with hl | ⟨v, hv, he⟩
            · exact Or.inl hl
            · exact Or.inr ⟨v, Or.inl hv, he⟩
          · by_cases hk2 : k = "ArrowDown"
            · subst hk2
              rw [handleEvent_keyDown_eq hm]
              refine inv_runEffects _ _ ?_ ?_ ?_ ?_ ?_ <;> simp_all
              intro str hstr
              rcases h3 str hstr with hl | ⟨v, hv, he⟩
              · exact Or.inl hl
              · exact Or.inr ⟨v, Or.inl hv, he⟩
            · rw [handleEvent_keyOther_eq hm hk hk2]
              exact ⟨h1, h2, h3, h4, h5⟩
      | idle =>
          rw [handleEvent_idle_eq hm]
          exact ⟨h1, h2, h3, h4, h5⟩
      | unmount =>
          rw [handleEvent_unmount_eq hm]
          exact ⟨by simpa using h1, by simp, by simpa using h3, h4, h5⟩

/-- The two `useState` initializers read the same cell, so the initial
history is the one-element list holding the initial count. -/
theorem initHistory_eq (r : ReadResult) : initHistory r = [initCount r] := by
  cases r with
  | error e => rfl
  | ok o => cases o <;> rfl

/-- The state right after mount satisfies the invariant. -/
theorem inv_mkInit (store0 : Option String) (readOk : Bool) :
    Inv (mkInit store0 readOk) := by
  unfold mkInit
  refine inv_runEffects _ _ ?_ ?_ ?_ ?_ ?_ <;>
    simp_all [initHistory_eq, List.chain'_singleton]

/-- Every reachable state satisfies the invariant. -/
theorem reachable_inv {s : CState} (h : Reachable s) : Inv s := by
  induction h with
  | init store0 readOk => exact inv_mkInit store0 readOk
  | tick t ok _ _ ih => exact inv_advanceTo t ok ih
  | ev e _ ih => exact inv_handleEvent e ih

/-! ### Field preservation facts about the effect pass -/

theorem runEffects_count (cc sc : Bool) (s : CState) :
    (runEffects cc sc s).count = s.count := by
  cases cc <;> cases sc <;> rfl

theorem runEffects_step (cc sc : Bool) (s : CState) :
    (runEffects cc sc s).step = s.step := by
  cases cc <;> cases sc <;> rfl

theorem runEffects_writes (cc sc : Bool) (s : CState) :
    (runEffects cc sc s).writes = s.writes := by
  cases cc <;> cases sc <;> rfl

theorem runEffects_store (cc sc : Bool) (s : CState) :
    (runEffects cc sc s).store = s.store := by
  cases cc <;> cases sc <;> rfl

theorem runEffects_now (cc sc : Bool) (s : CState) :
    (runEffects cc sc s).now = s.now := by
  cases cc <;> cases sc <;> rfl

theorem runEffects_unmounted (cc sc : Bool) {s : CState}
    (hm : s.unmounted = false) : (runEffects cc sc s).unmounted = false := by
  cases cc <;> cases sc <;>
    simp [runEffects_ff, runEffects_ft, runEffects_tf, runEffects_tt, hm]

/-- An increment from a finite count with a finite nonzero step: the count
moves up by the step, the history reaction records the new value, and the
save effect replaces any pending timer with one that fires 400 time-units
from now and captures the new count. -/
theorem handleEvent_inc_spec {s : CState} {c d : ℤ} (hm : s.unmounted = false)
    (hc : s.count = .fin c) (hd : s.step = .fin d) (hd0 : d ≠ 0) :
    handleEvent .inc s =
      { s with count := .fin (c + d),
               counts := s.counts ++ [.fin (c + d)],
               history := historyPush s.history (.fin (c + d)),
               unmounted := false, isSaving := true,
               saveTimer := some (s.now + 400, .fin (c + d)) } := by
  rw [handleEvent_inc_eq hm, hc, hd]
  have hne : JSNum.add (.fin c) (.fin d) ≠ JSNum.fin c := by
    intro h
    unfold JSNum.add at h
    injection h with h2
    exact hd0 (by linarith)
  rw [decide_eq_true hne, runEffects_tf]
  have hadd : JSNum.add (.fin c) (.fin d) = JSNum.fin (c + d) := rfl
  rw [hadd]

/-- The decrement analogue of `handleEvent_inc_spec`. -/
theorem handleEvent_dec_spec {s : CState} {c d : ℤ} (hm : s.unmounted = false)
    (hc : s.count = .fin c) (hd : s.step = .fin d) (hd0 : d ≠ 0) :
    handleEvent .dec s =
      { s with count := .fin (c - d),
               counts := s.counts ++ [.fin (c - d)],
               history := historyPush s.history (.fin (c - d)),
               unmounted := false, isSaving := true,
               saveTimer := some (s.now + 400, .fin (c - d)) } := by
  rw [handleEvent_dec_eq hm, hc, hd]
  have hne : JSNum.sub (.fin c) (.fin d) ≠ JSNum.fin c := by
    intro h
    unfold JSNum.sub at h
    injection h with h2
    exact hd0 (by linarith)
  rw [decide_eq_true hne, runEffects_tf]
  have hsub : JSNum.sub (.fin c) (.fin d) = JSNum.fin (c - d) := rfl
  rw [hsub]

/-! ### The claims -/

/-- C1, counterexample: starting a session with an empty store and pressing
increment once leaves the count at 1; pressing reset (with the key removal
succeeding) then sets the count to 0, empties the history and removes the
key, but the history-recording reaction re-runs on the count change with
the now-empty history and appends 0, so the settled history after reset is
`[0]`, not the empty sequence the claim demands. -/
theorem C1_counterexample :
    (handleEvent (.reset true) (handleEvent .inc (mkInit none true))).count
      = JSNum.fin 0 ∧
    (handleEvent (.reset true) (handleEvent .inc (mkInit none true))).store = none ∧
    (handleEvent (.reset true) (handleEvent .inc (mkInit none true))).history
      = [JSNum.fin 0] ∧
    (handleEvent (.reset true) (handleEvent .inc (mkInit none true))).history ≠ [] := by
  refine ⟨by decide, by decide, by decide, ?_⟩
  intro h
  have h2 : (handleEvent (.reset true) (handleEvent .inc (mkInit none true))).history
      = [JSNum.fin 0] := by decide
  rw [h2] at h
  cases h

/-- C1, amended: after `reset()` the count is 0 and the durable store no
longer holds the key when the removal succeeds — a throwing
`localStorage.removeItem` is swallowed and leaves the key in place; the
history is emptied by the reset itself, but when the count was nonzero at
the time of reset the history-recording reaction re-runs on the count
change and re-seeds the history to the one-element sequence `[0]` (the
history stays empty only when the count was already 0), and in that case a
new debounced save of 0 is scheduled 400 time-units out. -/
theorem C1_reset_amended (s : CState) (removeOk : Bool) (hm : s.unmounted = false) :
    (handleEvent (.reset removeOk) s).count = JSNum.fin 0 ∧
    (handleEvent (.reset removeOk) s).store
      = (if removeOk then none else s.store) ∧
    (handleEvent (.reset removeOk) s).history
      = (if s.count = JSNum.fin 0 then ([] : List JSNum) else [JSNum.fin 0]) ∧
    (s.count ≠ JSNum.fin 0 →
      (handleEvent (.reset removeOk) s).saveTimer
        = some (s.now + 400, JSNum.fin 0)) := by
  rw [handleEvent_reset_eq removeOk hm]
  by_cases hcz : s.count = JSNum.fin 0
  · rw [if_pos hcz]
    have hdec : decide (JSNum.fin 0 ≠ s.count) = false := by
      simp [hcz]
    rw [hdec, runEffects_ff]
    exact ⟨by simp, by simp, by simp, fun hne => absurd hcz hne⟩
  · rw [if_neg hcz]
    have hdec : decide (JSNum.fin 0 ≠ s.count) = true :=
      decide_eq_true (fun h => hcz h.symm)
    rw [hdec, runEffects_tf]
    refine ⟨by simp, by simp, ?_, fun _ => by simp⟩
    simp [historyPush_nil]

/-- C1 amended, witness at a concrete input: mount on an empty store, one
increment (count 1), then a reset whose key removal succeeds. -/
theorem C1_reset_amended_witness :
    (handleEvent (.reset true) (handleEvent .inc (mkInit none true))).count
      = JSNum.fin 0 ∧
    (handleEvent (.reset true) (handleEvent .inc (mkInit none true))).store = none := by
  have h := C1_reset_amended (handleEvent .inc (mkInit none true)) true (by decide)
  exact ⟨h.1, by simpa using h.2.1⟩

/-- C3: in every reachable state, when the durable store holds a string
under the fixed key, that string is either the content the store already
had when the session started (a value persisted by a previous session) or
the string form of some value the count actually held at a past instant of
this session (the ghost list `counts`). -/
theorem C3_store_holds_past_count {s : CState} (hr : Reachable s)
    (str : String) (hs : s.store = some str) :
    s.store0 = some str ∨ ∃ v ∈ s.counts, jsString v = str :=
  (reachable_inv hr).store_ok str hs

/-- C3, witness: a session started over a store holding "7". -/
theorem C3_store_holds_past_count_witness :
    (mkInit (some ("7")) true).store0 = some ("7") ∨
      ∃ v ∈ (mkInit (some ("7")) true).counts, jsString v = "7" :=
  C3_store_holds_past_count (Reachable.init (some ("7")) true) "7" (by decide)

/-- C4: after the unmount event no store write and no saving-flag update
can happen: the pending timer is cancelled, the unmounted ref is set,
advancing the clock only moves time (no timer is left to fire), every
further event is a no-op, and even a timer callback that still ran against
an unmounted state is suppressed by the liveness check and changes
nothing. -/
theorem C4_unmount_no_late_effects (s : CState) (hm : s.unmounted = false) :
    (handleEvent .unmount s).saveTimer = none ∧
    (handleEvent .unmount s).unmounted = true ∧
    (∀ (t : Nat) (ok : Bool),
      advanceTo t ok (handleEvent .unmount s)
        = { (handleEvent .unmount s) with now := t }) ∧
    (∀ e : Ev, handleEvent e (handleEvent .unmount s) = handleEvent .unmount s) ∧
    (∀ (v : JSNum) (ok : Bool) (u : CState),
      u.unmounted = true → timerCallback v ok u = u) := by
  rw [handleEvent_unmount_eq hm]
  refine ⟨rfl, rfl, ?_, ?_, ?_⟩
  · intro t ok
    exact advanceTo_none t ok rfl
  · intro e
    exact handleEvent_dead e rfl
  · intro v ok u hu
    exact timerCallback_unmounted v ok hu

/-- C4, witness: unmounting right after mount, while the mount-scheduled
save timer is still pending. -/
theorem C4_unmount_no_late_effects_witness :
    (handleEvent .unmount (mkInit none true)).saveTimer = none ∧
    (handleEvent .unmount (mkInit none true)).unmounted = true := by
  have h := C4_unmount_no_late_effects (mkInit none true) (by decide)
  exact ⟨h.1, h.2.1⟩

/-- C5, counterexample: mounting over a store whose value is the
non-numeric string "abc" makes the initial count NaN and seeds the history
with NaN; the mount run of the history reaction compares with JavaScript
strict equality, under which NaN differs from itself, and appends NaN
again: the reachable history `[NaN, NaN]` has two consecutive equal
entries. -/
theorem C5_counterexample :
    (mkInit (some ("abc")) true).history = [JSNum.nan, JSNum.nan] ∧
    ¬ List.Chain' (fun a b => a ≠ b) (mkInit (some ("abc")) true).history := by
  have he : (mkInit (some ("abc")) true).history = [JSNum.nan, JSNum.nan] := by
    decide
  refine ⟨he, ?_⟩
  intro h
  rw [he] at h
  exact (List.chain'_pair.mp h) rfl

/-- C5, amended: in every reachable state no two consecutive history
entries are equal under JavaScript strict equality, the comparison the
recording reaction actually performs; since `NaN === NaN` is false,
consecutive NaN entries can occur (exactly when the count is NaN, from a
malformed persisted value), while for non-NaN values consecutive
duplicates are suppressed as claimed. -/
theorem C5_history_no_strict_dup {s : CState} (hr : Reachable s) :
    List.Chain' (fun a b => jsStrictEq a b = false) s.history :=
  (reachable_inv hr).hist

/-- C5 amended, witness: the freshly mounted session over an empty store. -/
theorem C5_history_no_strict_dup_witness :
    List.Chain' (fun a b => jsStrictEq a b = false) (mkInit none true).history :=
  C5_history_no_strict_dup (Reachable.init none true)

/-- C6, counterexample: the step-setting operation passes the raw string
"-3" through unchanged, yielding the negative step −3; the effective step
is therefore not always a positive integer. -/
theorem C6_counterexample :
    handleStepChange ("-3") = JSNum.fin (-3) ∧ ((-3 : ℤ) < 0) := by
  exact ⟨by decide, by decide⟩

/-- C6, amended: for every raw string the resulting effective step is a
finite nonzero number and no error is raised (the operation is total):
non-finite input (NaN included) and zero are silently coerced to 1, but
any other finite parsed value — negative or non-integer included — is kept
as-is, so the step is not guaranteed to be a positive integer. -/
theorem C6_step_amended (raw : String) :
    (∃ q : ℤ, handleStepChange raw = JSNum.fin q ∧ q ≠ 0) ∧
    ((jsNumber raw).isFinite = false → handleStepChange raw = JSNum.fin 1) ∧
    (jsNumber raw = JSNum.fin 0 → handleStepChange raw = JSNum.fin 1) := by
  unfold handleStepChange
  cases hn : jsNumber raw with
  | nan =>
      refine ⟨⟨1, ?_, one_ne_zero⟩, ?_, ?_⟩
      · simp [JSNum.isFinite, JSNum.isNaN]
      · intro _
        simp [JSNum.isFinite, JSNum.isNaN]
      · intro h
        cases h
  | fin q =>
      by_cases hq : q = 0
      · subst hq
        refine ⟨⟨1, ?_, one_ne_zero⟩, ?_, ?_⟩
        · simp [JSNum.isFinite, JSNum.isNaN, jsStrictEq]
        · intro hfin
          simp [JSNum.isFinite] at hfin
        · intro _
          simp [JSNum.isFinite, JSNum.isNaN, jsStrictEq]
      · refine ⟨⟨q, ?_, hq⟩, ?_, ?_⟩
        · simp [JSNum.isFinite, JSNum.isNaN, jsStrictEq, hq]
        · intro hfin
          simp [JSNum.isFinite] at hfin
        · intro h
          injection h with h2
          exact absurd h2 hq

/-- C6 amended, witness: the raw string "0" parses to zero and is coerced
to step 1. -/
theorem C6_step_amended_witness : handleStepChange ("0") = JSNum.fin 1 :=
  (C6_step_amended ("0")).2.2 (by decide)

/-- C7: in every reachable state the step ref equals the step state (the
sync effect runs before any later dispatch), so an ArrowUp or ArrowDown
key dispatch — which reads the ref — adjusts the count by exactly the step
value current at dispatch time, never a stale one. -/
theorem C7_key_uses_current_step {s : CState} (hr : Reachable s)
    (hm : s.unmounted = false) :
    s.stepRef = s.step ∧
    (handleEvent (.key ("ArrowUp")) s).count = JSNum.add s.count s.step ∧
    (handleEvent (.key ("ArrowDown")) s).count = JSNum.sub s.count s.step := by
  have hsr := (reachable_inv hr).stepref
  refine ⟨hsr, ?_, ?_⟩
  · rw [handleEvent_keyUp_eq hm, runEffects_count]
    simp [hsr]
  · rw [handleEvent_keyDown_eq hm, runEffects_count]
    simp [hsr]

/-- C7, witness: set the step to "5", then press ArrowUp — the count rises
by exactly 5. -/
theorem C7_key_uses_current_step_witness :
    (handleEvent (.key ("ArrowUp"))
        (handleEvent (.stepInput ("5")) (mkInit none true))).count = JSNum.fin 5 := by
  have h := C7_key_uses_current_step
    (Reachable.ev (.stepInput ("5")) (Reachable.init none true)) (by decide)
  exact h.2.1.trans (by decide)

/-- A sequence of clicks on the increment (`true`) and decrement (`false`)
buttons, processed in order. -/
def clicks (l : List Bool) (s : CState) : CState :=
  l.foldl (fun s b => handleEvent (if b then Ev.inc else Ev.dec) s) s

/-- C8: for every finite sequence of increment and decrement clicks with a
fixed effective step `d`, the final count equals the initial count plus
(number of increments minus number of decrements) times `d`. -/
theorem C8_fixed_step_additivity (l : List Bool) (s : CState) (c d : ℤ)
    (hm : s.unmounted = false) (hc : s.count = JSNum.fin c)
    (hd : s.step = JSNum.fin d) (hd0 : d ≠ 0) :
    (clicks l s).count
      = JSNum.fin (c + ((l.count true : ℤ) - (l.count false : ℤ)) * d) := by
  induction l generalizing s c with
  | nil => simp [clicks, hc]
  | cons b t ih =>
      cases b with
      | true =>
          show (clicks t (handleEvent Ev.inc s)).count = _
          rw [handleEvent_inc_spec hm hc hd hd0]
          rw [ih _ (c + d) (by simp) (by simp) (by simp [hd])]
          have hct : ((true :: t).count true : ℤ) = (t.count true : ℤ) + 1 := by
            simp [List.count_cons]
          have hcf : ((true :: t).count false : ℤ) = (t.count false : ℤ) := by
            simp [List.count_cons]
          rw [hct, hcf]
          congr 1
          ring
      | false =>
          show (clicks t (handleEvent Ev.dec s)).count = _
          rw [handleEvent_dec_spec hm hc hd hd0]
          rw [ih _ (c - d) (by simp) (by simp) (by simp [hd])]
          have hct : ((false :: t).count true : ℤ) = (t.count true : ℤ) := by
            simp [List.count_cons]
          have hcf : ((false :: t).count false : ℤ) = (t.count false : ℤ) + 1 := by
            simp [List.count_cons]
          rw [hct, hcf]
          congr 1
          ring

/-- C8, witness: two increments and one decrement at step 1 from count 0
give count 1. -/
theorem C8_fixed_step_additivity_witness :
    (clicks [true, true, false] (mkInit none true)).count = JSNum.fin 1 := by
  have h := C8_fixed_step_additivity [true, true, false] (mkInit none true) 0 1
    (by decide) (by decide) (by decide) (by decide)
  exact h.trans (by decide)

/-- A sequence of timed count changes: before each change the clock is
advanced to the change time (firing the pending save timer if it became
due), then the increment (`true`) or decrement (`false`) handler runs. -/
def runChanges (l : List (Nat × Bool)) (s : CState) : CState :=
  l.foldl
    (fun s p => handleEvent (if p.2 then Ev.inc else Ev.dec) (advanceTo p.1 true s))
    s

/-- The change times are ordered and each change falls strictly inside the
quiet interval (400 time-units) of its predecessor. -/
def GapsOk : List (Nat × Bool) → Prop :=
  List.Chain' (fun p q => p.1 ≤ q.1 ∧ q.1 < p.1 + 400)

/-- Running a window of changes that stay within one quiet interval of each
other performs no store write, keeps the component mounted with a finite
count and the same step, leaves the clock at the last change time, and
leaves exactly one pending timer: it fires 400 time-units after the last
change and captures the final count. -/
theorem runChanges_spec (l : List (Nat × Bool)) (hne : l ≠ [])
    (s : CState) (c d : ℤ)
    (hm : s.unmounted = false) (hc : s.count = JSNum.fin c)
    (hd : s.step = JSNum.fin d) (hd0 : d ≠ 0)
    (hnow : ∀ p ∈ l.head?, s.now ≤ p.1)
    (htimer : ∀ p ∈ l.head?, ∀ ft v, s.saveTimer = some (ft, v) → p.1 < ft)
    (hgaps : GapsOk l) :
    ∃ c' : ℤ,
      (runChanges l s).count = JSNum.fin c' ∧
      (runChanges l s).step = JSNum.fin d ∧
      (runChanges l s).unmounted = false ∧
      (runChanges l s).writes = s.writes ∧
      (runChanges l s).store = s.store ∧
      (runChanges l s).now = (l.getLast hne).1 ∧
      (runChanges l s).saveTimer = some ((l.getLast hne).1 + 400, JSNum.fin c') := by
  induction l generalizing s c with
  | nil => exact absurd rfl hne
  | cons p t ih =>
      have hA : advanceTo p.1 true s = { s with now := p.1 } :=
        advanceTo_nofire p.1 true (htimer p (by simp))
      have hm1 : ({ s with now := p.1 } : CState).unmounted = false := by simp [hm]
      have hcnt1 : ({ s with now := p.1 } : CState).count = JSNum.fin c := by simp [hc]
      have hstp1 : ({ s with now := p.1 } : CState).step = JSNum.fin d := by simp [hd]
      have hstep : handleEvent (if p.2 then Ev.inc else Ev.dec) (advanceTo p.1 true s)
          = { s with now := p.1,
                     count := JSNum.fin (if p.2 then c + d else c - d),
                     counts := s.counts ++ [JSNum.fin (if p.2 then c + d else c - d)],
                     history := historyPush s.history
                       (JSNum.fin (if p.2 then c + d else c - d)),
                     unmounted := false, isSaving := true,
                     saveTimer := some (p.1 + 400,
                       JSNum.fin (if p.2 then c + d else c - d)) } := by
        rw [hA]
        cases hb : p.2
        · simp only [Bool.false_eq_true, if_false]
          rw [handleEvent_dec_spec hm1 hcnt1 hstp1 hd0]
        · simp only [if_true]
          rw [handleEvent_inc_spec hm1 hcnt1 hstp1 hd0]
      cases t with
      | nil =>
          have hrun : runChanges [p] s
              = handleEvent (if p.2 then Ev.inc else Ev.dec) (advanceTo p.1 true s) := rfl
          refine ⟨if p.2 then c + d else c - d, ?_, ?_, ?_, ?_, ?_, ?_, ?_⟩ <;>
            rw [hrun, hstep] <;> simp [List.getLast_singleton, hd]
      | cons q t2 =>
          have hfold : runChanges (p :: q :: t2) s
              = runChanges (q :: t2)
                  (handleEvent (if p.2 then Ev.inc else Ev.dec) (advanceTo p.1 true s)) := rfl
          have hg2 : List.Chain'
              (fun p q => p.1 ≤ q.1 ∧ q.1 < p.1 + 400) (p :: q :: t2) := hgaps
          have hrel := (List.chain'_cons.mp hg2).1
          have hgt : GapsOk (q :: t2) := (List.chain'_cons.mp hg2).2
          obtain ⟨c'', h1, h2, h3, h4, h5, h6, h7⟩ :=
            ih (List.cons_ne_nil q t2)
              { s with now := p.1,
                       count := JSNum.fin (if p.2 then c + d else c - d),
                       counts := s.counts ++ [JSNum.fin (if p.2 then c + d else c - d)],
                       history := historyPush s.history
                         (JSNum.fin (if p.2 then c + d else c - d)),
                       unmounted := false, isSaving := true,
                       saveTimer := some (p.1 + 400,
                         JSNum.fin (if p.2 then c + d else c - d)) }
              (if p.2 then c + d else c - d)
              (by simp) (by simp) (by simp [hd])
              (by
                intro pq hpq
                simp only [List.head?_cons, Option.mem_def, Option.some.injEq] at hpq
                subst hpq
                simpa using hrel.1)
              (by
                intro pq hpq ft v hfv
                simp only [List.head?_cons, Option.mem_def, Option.some.injEq] at hpq
                subst hpq
                simp only [Option.some.injEq, Prod.mk.injEq] at hfv
                have hft : ft = p.1 + 400 := hfv.1.symm
                rw [hft]
                exact hrel.2)
              hgt
          have hlast : (p :: q :: t2).getLast hne
              = (q :: t2).getLast (List.cons_ne_nil q t2) :=
            List.getLast_cons (List.cons_ne_nil q t2)
          refine ⟨c'', ?_, ?_, ?_, ?_, ?_, ?_, ?_⟩
          · rw [hfold, hstep]
            exact h1
          · rw [hfold, hstep]
            exact h2
          · rw [hfold, hstep]
            exact h3
          · rw [hfold, hstep]
            exact h4
          · rw [hfold, hstep]
            exact h5
          · rw [hfold, hstep, hlast]
            exact h6
          · rw [hfold, hstep, hlast]
            exact h7

/-- C2: for every window of count changes in which each change occurs
strictly within the quiet interval (400 time-units) of the previous one —
and within the quiet interval of any already-pending save — the debounced
save performs no write during the window (each change cancels the pending
timer before scheduling its own), writes nothing when the clock is
advanced to any instant before (last change time + 400), and when the
clock passes that instant it writes exactly one entry: the count value
current after the final change, stamped at exactly (last change time +
400). -/
theorem C2_debounce_last_write_only (l : List (Nat × Bool)) (hne : l ≠ [])
    (s : CState) (c d : ℤ)
    (hm : s.unmounted = false) (hc : s.count = JSNum.fin c)
    (hd : s.step = JSNum.fin d) (hd0 : d ≠ 0)
    (hnow : ∀ p ∈ l.head?, s.now ≤ p.1)
    (htimer : ∀ p ∈ l.head?, ∀ ft v, s.saveTimer = some (ft, v) → p.1 < ft)
    (hgaps : GapsOk l) :
    (runChanges l s).writes = s.writes ∧
    (∀ T : Nat, T < (l.getLast hne).1 + 400 →
      (advanceTo T true (runChanges l s)).writes = s.writes) ∧
    (∀ T : Nat, (l.getLast hne).1 + 400 ≤ T →
      (advanceTo T true (runChanges l s)).writes
        = s.writes ++ [((l.getLast hne).1 + 400, jsString ((runChanges l s).count))]) := by
  obtain ⟨c', h1, h2, h3, h4, h5, h6, h7⟩ :=
    runChanges_spec l hne s c d hm hc hd hd0 hnow htimer hgaps
  refine ⟨h4, ?_, ?_⟩
  · intro T hT
    rw [advanceTo_wait T true h7 hT]
    exact h4
  · intro T hT
    rw [advanceTo_fire T true h7 hT]
    rw [timerCallback_ok _ (by simp [h3])]
    simp [h4, h1]

/-- C2, witness: the spec scenario — changes at t = 0, 100, 200 on a fresh
session (step 1), clock advanced to 700: the single write is the value 3
of the last change, stamped at t = 600. -/
theorem C2_debounce_last_write_only_witness :
    (advanceTo 700 true
        (runChanges [(0, true), (100, true), (200, true)] (mkInit none true))).writes
      = [(600, "3")] := by
  have h := (C2_debounce_last_write_only [(0, true), (100, true), (200, true)]
      (by decide) (mkInit none true) 0 1 (by decide) (by decide) (by decide) (by decide)
      (by
        intro p hp
        simp only [List.head?_cons, Option.mem_def, Option.some.injEq] at hp
        subst hp
        decide)
      (by
        intro p hp ft v hfv
        simp only [List.head?_cons, Option.mem_def, Option.some.injEq] at hp
        subst hp
        rw [show (mkInit none true).saveTimer = some (400, JSNum.fin 0) from by decide]
          at hfv
        simp only [Option.some.injEq, Prod.mk.injEq] at hfv
        rw [← hfv.1]
        decide)
      (by
        show List.Chain' (fun p q => p.1 ≤ q.1 ∧ q.1 < p.1 + 400)
          [(0, true), (100, true), (200, true)]
        refine List.chain'_cons.mpr ⟨⟨by norm_num, by norm_num⟩, ?_⟩
        refine List.chain'_cons.mpr ⟨⟨by norm_num, by norm_num⟩, ?_⟩
        exact List.chain'_singleton _)).2.2 700 (by decide)
  rw [h]
  decide

/-- C9: storage failures are swallowed: a throwing read makes the initial
count fall back to the in-memory default 0, and a throwing write
(`writeOk = false`) leaves the store and the write log untouched while the
`finally` block still clears the saving flag exactly as on success. -/
theorem C9_storage_errors_swallowed :
    initCount (Except.error ()) = JSNum.fin 0 ∧
    (∀ (s : CState) (v : JSNum), s.unmounted = false →
      (timerCallback v false s).store = s.store ∧
      (timerCallback v false s).writes = s.writes ∧
      (timerCallback v false s).isSaving = false) := by
  refine ⟨rfl, ?_⟩
  intro s v hm
  rw [timerCallback_fail v hm]
  exact ⟨rfl, rfl, rfl⟩

/-- C9, witness: a failing write fired right after mount still clears the
saving flag and writes nothing. -/
theorem C9_storage_errors_swallowed_witness :
    (timerCallback (JSNum.fin 0) false (mkInit none true)).isSaving = false ∧
    (timerCallback (JSNum.fin 0) false (mkInit none true)).writes
      = (mkInit none true).writes :=
  ⟨(C9_storage_errors_swallowed.2 (mkInit none true) (JSNum.fin 0) (by decide)).2.2,
   (C9_storage_errors_swallowed.2 (mkInit none true) (JSNum.fin 0) (by decide)).2.1⟩

/-- C10: when the read succeeds and the key is present, the initial count
is the numeric coercion of the stored string — NaN for non-numeric text
such as "abc", not the default 0; the fallback to 0 applies only when the
key is absent or the read throws; the history initializer seeds the same
value. -/
theorem C10_malformed_store_gives_nan :
    (∀ raw : String, initCount (Except.ok (some raw)) = jsNumber raw) ∧
    initCount (Except.ok (some ("abc"))) = JSNum.nan ∧
    initCount (Except.ok (some ("abc"))) ≠ JSNum.fin 0 ∧
    initCount (Except.ok none) = JSNum.fin 0 ∧
    initCount (Except.error ()) = JSNum.fin 0 ∧
    (∀ r : ReadResult, initHistory r = [initCount r]) := by
  refine ⟨fun raw => rfl, by decide, ?_, rfl, rfl, initHistory_eq⟩
  intro h
  have h2 : initCount (Except.ok (some ("abc"))) = JSNum.nan := by decide
  rw [h2] at h
  cases h

end AdvCounter
